import Mathlib

/-!
A verification development for the order-lifecycle and promotion-pricing
subsystem of the `shopping-system-oop` repository (C++).

Modelling conventions for the shallow embedding:
* C++ `double` amounts are modelled as `ℚ` (the claims under study concern
  which branches are taken and exact sums, not floating-point rounding).
* C++ `int` quantities/stocks and `time_t` instants are modelled as `ℤ`.
* The mutable stock stored inside the shared `Item` objects is modelled as an
  association list from `itemId` to stock, threaded explicitly; in the system
  an `itemId` uniquely identifies the live `Item` object, so pointer identity
  coincides with key identity.
* A C++ function that can throw returns `Except`; because a throw does not
  undo mutations already performed through shared pointers, such functions
  return the (possibly mutated) store *alongside* the `Except` result.
-/

namespace Shop

/-- `OrderStatus` enum (Include/Order/Order.h lines 22-26). -/
inductive OrderStatus where
  | PENDING
  | SHIPPED
  | DELIVERED
deriving DecidableEq, Repr

/-- `OrderItem` struct (Include/Order/Order.h): a frozen order line. -/
structure OrderItem where
  itemId : String
  itemName : String
  price : ℚ
  quantity : ℤ
deriving DecidableEq, Repr

/-- One basket line as seen by `Order::Order`: the fields read from the
pointed-to `Item` (`getItemId`, `getItemName`, `getPrice`) plus the requested
quantity.  The mutable stock lives in the threaded store. -/
structure CartLine where
  itemId : String
  itemName : String
  price : ℚ
  quantity : ℤ
deriving DecidableEq, Repr

/-- Payload of `InsufficientStockException` (Include/Order/OrderException.h
lines 52-62): item name, requested quantity, available stock. -/
structure StockError where
  itemName : String
  requested : ℤ
  available : ℤ
deriving DecidableEq, Repr

/-- `Item::getStock()` through the store: stock held by the `Item` object
with the given id.  (The basket always references live items, so the
`none` default is never exercised by the theorems below.) -/
def lookupStock (store : List (String × ℤ)) (id : String) : ℤ :=
  match store.find? (fun p => p.1 == id) with
  | some p => p.2
  | none => 0

/-- `Item::setStock(v)` through the store. -/
def setStock (store : List (String × ℤ)) (id : String) (v : ℤ) :
    List (String × ℤ) :=
  store.map (fun p => if p.1 == id then (p.1, v) else p)

/-- The per-line loop of `Order::Order` (Src/Order/Order.cpp lines 48-67):
check `quantity > item->getStock()` and throw, else append the frozen line,
accumulate the total and decrement the stock.  The store is returned even on
error because the decrements already performed through shared pointers
survive the throw. -/
def orderLinesLoop (store : List (String × ℤ)) (lines : List CartLine)
    (acc : List OrderItem) (total : ℚ) :
    List (String × ℤ) × Except StockError (List OrderItem × ℚ) :=
  match lines with
  | [] => (store, .ok (acc, total))
  | line :: rest =>
    let stock := lookupStock store line.itemId
    if line.quantity > stock then
      (store, .error ⟨line.itemName, line.quantity, stock⟩)
    else
      orderLinesLoop (setStock store line.itemId (stock - line.quantity)) rest
        (acc ++ [⟨line.itemId, line.itemName, line.price, line.quantity⟩])
        (total + line.price * line.quantity)

/-- `Order` data (Include/Order/Order.h lines 55-66). -/
structure Order where
  orderId : String
  userId : String
  items : List OrderItem
  orderTime : ℤ
  totalAmount : ℚ
  shippingAddress : String
  status : OrderStatus
  statusChangeTime : ℤ
deriving DecidableEq, Repr

/-- `Order::generateOrderId` (Src/Order/Order.cpp lines 96-111) feeds
`userId + "_" + timestamp` through `std::hash`, whose value is
implementation-defined; it is modelled as the unhashed combined string with
the `ORD` prefix.  No claim depends on the id's value. -/
def Order.generateOrderId (userId : String) (timestamp : ℤ) : String :=
  "ORD" ++ userId ++ "_" ++ toString timestamp

/-- The basket constructor `Order::Order` (Src/Order/Order.cpp lines 33-73):
runs the per-line loop at instant `now` and, when no line throws, builds the
order with `status = PENDING` and `statusChangeTime = orderTime = now`.
(The `itemManager->saveToFile()` call on the success path writes the item
file; it does not change any stock.) -/
def Order.construct (userId : String) (cart : List CartLine)
    (shippingAddress : String) (now : ℤ) (store : List (String × ℤ)) :
    List (String × ℤ) × Except StockError Order :=
  match orderLinesLoop store cart [] 0 with
  | (store2, .error e) => (store2, .error e)
  | (store2, .ok (items, total)) =>
      (store2, .ok { orderId := Order.generateOrderId userId now,
                     userId := userId, items := items, orderTime := now,
                     totalAmount := total, shippingAddress := shippingAddress,
                     status := .PENDING, statusChangeTime := now })

/-- The store after performing, unconditionally, the stock decrement of each
given line in order (spec-side description of the partial effects that
`Order::Order` leaves behind). -/
def applyDecrements (store : List (String × ℤ)) (lines : List CartLine) :
    List (String × ℤ) :=
  lines.foldl
    (fun s l => setStock s l.itemId (lookupStock s l.itemId - l.quantity)) store

/-- Spec-side: every line of the list finds sufficient stock when processed
sequentially (each line seeing the decrements of the previous ones). -/
def prefixSufficient (store : List (String × ℤ)) : List CartLine → Prop
  | [] => True
  | l :: ls =>
      l.quantity ≤ lookupStock store l.itemId ∧
      prefixSufficient
        (setStock store l.itemId (lookupStock store l.itemId - l.quantity)) ls

/-- Every failing run of the constructor's per-line loop splits the basket at
the first insufficient line: the lines before it were all processed
(sufficient, and decremented in the returned store) and the error carries the
failing line's name, request and then-available stock. -/
theorem orderLinesLoop_error (store : List (String × ℤ)) (cart : List CartLine)
    (acc : List OrderItem) (total : ℚ) (e : StockError)
    (h : (orderLinesLoop store cart acc total).2 = .error e) :
    ∃ pre line post, cart = pre ++ line :: post ∧
      prefixSufficient store pre ∧
      lookupStock (applyDecrements store pre) line.itemId < line.quantity ∧
      e = ⟨line.itemName, line.quantity,
           lookupStock (applyDecrements store pre) line.itemId⟩ ∧
      (orderLinesLoop store cart acc total).1 = applyDecrements store pre := by
  induction cart generalizing store acc total with
  | nil => simp [orderLinesLoop] at h
  | cons line rest ih =>
    by_cases hq : line.quantity > lookupStock store line.itemId
    · refine ⟨[], line, rest, rfl, trivial, hq, ?_, ?_⟩
      · simp only [orderLinesLoop, if_pos hq] at h
        simpa [applyDecrements] using h.symm
      · simp [orderLinesLoop, if_pos hq, applyDecrements]
    · simp only [orderLinesLoop, if_neg hq] at h
      obtain ⟨pre, l, post, hsplit, hsuf, hlt, he, hst⟩ := ih _ _ _ h
      refine ⟨line :: pre, l, post, by simp [hsplit], ⟨le_of_not_lt hq, hsuf⟩,
        ?_, ?_, ?_⟩
      · simpa [applyDecrements] using hlt
      · simpa [applyDecrements] using he
      · simp only [orderLinesLoop, if_neg hq]
        simpa [applyDecrements] using hst

/-- Unfolds `Order.construct` to the loop: error component. -/
theorem construct_error_iff (userId addr : String) (now : ℤ)
    (store : List (String × ℤ)) (cart : List CartLine) (e : StockError) :
    (Order.construct userId cart addr now store).2 = .error e ↔
      (orderLinesLoop store cart [] 0).2 = .error e := by
  unfold Order.construct
  rcases hr : orderLinesLoop store cart [] 0 with ⟨s2, r⟩
  cases r <;> simp

/-- Unfolds `Order.construct` to the loop: returned store component. -/
theorem construct_fst (userId addr : String) (now : ℤ)
    (store : List (String × ℤ)) (cart : List CartLine) :
    (Order.construct userId cart addr now store).1 =
      (orderLinesLoop store cart [] 0).1 := by
  unfold Order.construct
  rcases hr : orderLinesLoop store cart [] 0 with ⟨s2, r⟩
  cases r <;> simp

/-- Unfolding `lookupStock` over one store entry. -/
theorem lookupStock_cons (p : String × ℤ) (t : List (String × ℤ)) (id : String) :
    lookupStock (p :: t) id = if p.1 = id then p.2 else lookupStock t id := by
  by_cases h : p.1 = id <;> simp [lookupStock, List.find?_cons, h]

/-- Unfolding `setStock` over one store entry. -/
theorem setStock_cons (p : String × ℤ) (t : List (String × ℤ)) (id : String)
    (v : ℤ) :
    setStock (p :: t) id v =
      (if p.1 = id then (p.1, v) else p) :: setStock t id v := by
  by_cases h : p.1 = id <;> simp [setStock, h]

/-- Writing a different key leaves a lookup unchanged. -/
theorem lookupStock_setStock_ne (s : List (String × ℤ)) (id id2 : String)
    (v : ℤ) (hne : id2 ≠ id) :
    lookupStock (setStock s id v) id2 = lookupStock s id2 := by
  induction s with
  | nil => rfl
  | cons p t ih =>
    rw [setStock_cons]
    have hkey : (if p.1 = id then (p.1, v) else p).1 = p.1 := by
      by_cases h : p.1 = id <;> simp [h]
    rw [lookupStock_cons, lookupStock_cons, hkey]
    by_cases hq : p.1 = id2
    · have hp : p.1 ≠ id := by rw [hq]; exact hne
      rw [if_pos hq, if_pos hq, if_neg hp]
    · rw [if_neg hq, if_neg hq]
      exact ih

/-- Writing a value no larger than the current one does not increase the
lookup of that key. -/
theorem lookupStock_setStock_self_le (s : List (String × ℤ)) (id : String)
    (v : ℤ) (hv : v ≤ lookupStock s id) :
    lookupStock (setStock s id v) id ≤ lookupStock s id := by
  induction s with
  | nil => simp [lookupStock, setStock]
  | cons p t ih =>
    rw [setStock_cons]
    by_cases hp : p.1 = id
    · rw [lookupStock_cons p t id, if_pos hp] at hv ⊢
      simp only [if_pos hp, lookupStock_cons, hp, if_pos rfl]
      exact hv
    · rw [lookupStock_cons p t id, if_neg hp] at hv ⊢
      rw [if_neg hp, lookupStock_cons, if_neg hp]
      exact ih hv

/-- One stock decrement (nonnegative quantity) never increases any lookup. -/
theorem lookupStock_decrement_le (s : List (String × ℤ)) (id id2 : String)
    (q : ℤ) (hq : 0 ≤ q) :
    lookupStock (setStock s id (lookupStock s id - q)) id2 ≤
      lookupStock s id2 := by
  by_cases h : id2 = id
  · subst h
    exact lookupStock_setStock_self_le s id2 _ (by omega)
  · rw [lookupStock_setStock_ne s id id2 _ h]

/-- With nonnegative quantities, sequential sufficiency implies each line's
quantity was within the basket-start stock of its item. -/
theorem prefixSufficient_implies_sufficient (store : List (String × ℤ))
    (cart : List CartLine) (hs : prefixSufficient store cart)
    (hq : ∀ l ∈ cart, 0 ≤ l.quantity) :
    ∀ l ∈ cart, l.quantity ≤ lookupStock store l.itemId := by
  induction cart generalizing store with
  | nil => intro l hl; cases hl
  | cons line rest ih =>
    obtain ⟨h1, h2⟩ := hs
    intro l hl
    rcases List.mem_cons.mp hl with hl | hl
    · subst hl; exact h1
    · calc l.quantity ≤ lookupStock
            (setStock store line.itemId
              (lookupStock store line.itemId - line.quantity)) l.itemId :=
            ih _ h2 (fun x hx => hq x (List.mem_cons_of_mem _ hx)) l hl
        _ ≤ lookupStock store l.itemId :=
            lookupStock_decrement_le _ _ _ _ (hq line (List.mem_cons_self _ _))

/-- The loop succeeds exactly when every line finds sufficient stock at its
turn. -/
theorem orderLinesLoop_ok_iff (store : List (String × ℤ)) (cart : List CartLine)
    (acc : List OrderItem) (total : ℚ) :
    (∃ r, (orderLinesLoop store cart acc total).2 = .ok r) ↔
      prefixSufficient store cart := by
  induction cart generalizing store acc total with
  | nil => exact ⟨fun _ => trivial, fun _ => ⟨(acc, total), rfl⟩⟩
  | cons line rest ih =>
    by_cases hcase : line.quantity > lookupStock store line.itemId
    · simp only [orderLinesLoop, if_pos hcase, prefixSufficient]
      constructor
      · rintro ⟨r, hr⟩; cases hr
      · rintro ⟨h1, -⟩; exact absurd hcase (not_lt.mpr h1)
    · simp only [orderLinesLoop, if_neg hcase, prefixSufficient]
      rw [ih]
      exact ⟨fun h => ⟨le_of_not_lt hcase, h⟩, fun h => h.2⟩

/-- Concrete two-line basket: the first line is satisfiable (1 of item `A`,
stock 1), the second is not (5 of item `B`, stock 2). -/
def cartAB : List CartLine :=
  [⟨"A", "Alpha", 10, 1⟩, ⟨"B", "Beta", 5, 5⟩]

/-- Concrete starting stocks for `cartAB`. -/
def storeAB : List (String × ℤ) := [("A", 1), ("B", 2)]

/-- C1 counterexample: on `cartAB`/`storeAB` the constructor throws
`InsufficientStockException` for line `B`, yet item `A`'s stock has already
been decremented from 1 to 0 — the stock of the items referenced by the
basket is not left unchanged. -/
theorem orderConstruct_decrement_survives :
    (Order.construct "u1" cartAB "addr" 100 storeAB).2 =
      .error ⟨"Beta", 5, 2⟩ ∧
    lookupStock (Order.construct "u1" cartAB "addr" 100 storeAB).1 "A" = 0 ∧
    lookupStock storeAB "A" = 1 :=
  ⟨rfl, rfl, rfl⟩

/-- C1 (amended): a basket containing a line whose quantity exceeds the
available stock (quantities nonnegative) makes `Order::Order` throw
`InsufficientStockException`, describing the first line that finds
insufficient stock; but the construction is line-by-line, not all-or-nothing:
the stock decrements of the lines before the failing one survive in the
shared items (the final store is exactly the initial store with those
earlier decrements applied). -/
theorem orderConstruct_insufficient_partial_commit
    (userId addr : String) (now : ℤ) (store : List (String × ℤ))
    (cart : List CartLine)
    (hq : ∀ l ∈ cart, 0 ≤ l.quantity)
    (hex : ∃ l ∈ cart, lookupStock store l.itemId < l.quantity) :
    ∃ e, (Order.construct userId cart addr now store).2 = .error e ∧
      ∃ pre line post, cart = pre ++ line :: post ∧
        prefixSufficient store pre ∧
        lookupStock (applyDecrements store pre) line.itemId < line.quantity ∧
        e = ⟨line.itemName, line.quantity,
             lookupStock (applyDecrements store pre) line.itemId⟩ ∧
        (Order.construct userId cart addr now store).1 =
          applyDecrements store pre := by
  have hns : ¬ prefixSufficient store cart := by
    intro hs
    obtain ⟨l, hl, hlt⟩ := hex
    exact absurd (prefixSufficient_implies_sufficient store cart hs hq l hl)
      (not_le.mpr hlt)
  have herr : ∃ e, (orderLinesLoop store cart [] 0).2 = .error e := by
    rcases hr : (orderLinesLoop store cart [] 0).2 with e | r
    · exact ⟨e, rfl⟩
    · exact absurd ((orderLinesLoop_ok_iff store cart [] 0).mp ⟨r, hr⟩) hns
  obtain ⟨e, he⟩ := herr
  obtain ⟨pre, line, post, h1, h2, h3, h4, h5⟩ :=
    orderLinesLoop_error store cart [] 0 e he
  exact ⟨e, (construct_error_iff userId addr now store cart e).mpr he,
    pre, line, post, h1, h2, h3, h4,
    (construct_fst userId addr now store cart).trans h5⟩

/-- C1 witness: instantiating the amended theorem on `cartAB`/`storeAB`. -/
theorem orderConstruct_insufficient_partial_commit_inst :
    ∃ e, (Order.construct "u1" cartAB "addr" 100 storeAB).2 = .error e ∧
      ∃ pre line post, cartAB = pre ++ line :: post ∧
        prefixSufficient storeAB pre ∧
        lookupStock (applyDecrements storeAB pre) line.itemId < line.quantity ∧
        e = ⟨line.itemName, line.quantity,
             lookupStock (applyDecrements storeAB pre) line.itemId⟩ ∧
        (Order.construct "u1" cartAB "addr" 100 storeAB).1 =
          applyDecrements storeAB pre :=
  orderConstruct_insufficient_partial_commit "u1" "addr" 100 storeAB cartAB
    (by decide) ⟨⟨"B", "Beta", 5, 5⟩, by decide, by decide⟩

/-- In-memory state owned by `OrderManager`: the order collection plus the
item stocks reachable through its `itemManager`. -/
structure ManagerState where
  orders : List Order
  stocks : List (String × ℤ)
deriving DecidableEq, Repr

/-- `OrderManager::createOrder` (Src/Order/OrderManager.cpp lines 203-232):
constructs the order; on success appends it to the collection and saves; the
`InsufficientStockException` thrown by the constructor is caught inside
`createOrder` (lines 224-227) and `nullptr` is returned — it is not
rethrown to the caller. -/
def OrderManager.createOrder (userId : String) (cart : List CartLine)
    (shippingAddress : String) (now : ℤ) (st : ManagerState) :
    ManagerState × Option Order :=
  match Order.construct userId cart shippingAddress now st.stocks with
  | (stocks2, .error _) => ({ st with stocks := stocks2 }, none)
  | (stocks2, .ok order) =>
      ({ orders := st.orders ++ [order], stocks := stocks2 }, some order)

/-- C2 counterexample: on `cartAB`/`storeAB` the `Order` constructor throws
`InsufficientStockException`, but `createOrder` returns `nullptr` (`none`)
to its caller instead of propagating the error. -/
theorem createOrder_swallows_stock_error :
    (Order.construct "u1" cartAB "addr" 100 storeAB).2 =
      .error ⟨"Beta", 5, 2⟩ ∧
    (OrderManager.createOrder "u1" cartAB "addr" 100 ⟨[], storeAB⟩).2 =
      none :=
  ⟨rfl, rfl⟩

/-- C2 (amended): when the constructor raises `InsufficientStockError`,
`createOrder` catches it and returns null with the order collection
unchanged; when the basket has sufficient stock it returns the newly
constructed order and appends it to the collection. -/
theorem createOrder_catches_and_returns (userId : String)
    (cart : List CartLine) (addr : String) (now : ℤ) (st : ManagerState) :
    ((∃ e, (Order.construct userId cart addr now st.stocks).2 = .error e) →
      (OrderManager.createOrder userId cart addr now st).2 = none ∧
      (OrderManager.createOrder userId cart addr now st).1.orders =
        st.orders) ∧
    (∀ o, (Order.construct userId cart addr now st.stocks).2 = .ok o →
      (OrderManager.createOrder userId cart addr now st).2 = some o ∧
      (OrderManager.createOrder userId cart addr now st).1.orders =
        st.orders ++ [o]) := by
  rcases hr : Order.construct userId cart addr now st.stocks with ⟨s2, r⟩
  cases r with
  | error e =>
    refine ⟨fun _ => ?_, fun o ho => ?_⟩
    · simp [OrderManager.createOrder, hr]
    · simp at ho
  | ok o2 =>
    refine ⟨fun he => ?_, fun o ho => ?_⟩
    · obtain ⟨e, he⟩ := he
      simp at he
    · simp at ho
      subst ho
      simp [OrderManager.createOrder, hr]

/-- C2 witness: instantiating the amended theorem on the insufficient
basket `cartAB`. -/
theorem createOrder_catches_and_returns_inst :
    (OrderManager.createOrder "u1" cartAB "addr" 100 ⟨[], storeAB⟩).2 =
      none ∧
    (OrderManager.createOrder "u1" cartAB "addr" 100 ⟨[], storeAB⟩).1.orders =
      [] :=
  (createOrder_catches_and_returns "u1" cartAB "addr" 100 ⟨[], storeAB⟩).1
    ⟨⟨"Beta", 5, 2⟩, rfl⟩

/-- The kinds of accesses to the shared order collection and its persisted
file performed inside `OrderManager` method bodies. -/
inductive OrderAccess where
  | appendOrder
  | readOrders
  | mutateStatus
  | persistWrite
deriving DecidableEq, BEq, Repr

/-- One step of a method body as it relates to `ordersMutex`: either one
`lock_guard` critical section listing the accesses performed while the lock
is held, or a single access performed with no lock held. -/
inductive LockEvent where
  | locked : List OrderAccess → LockEvent
  | unlocked : OrderAccess → LockEvent
deriving DecidableEq, BEq, Repr

/-- Lock structure of the success path of `OrderManager::createOrder`
(Src/Order/OrderManager.cpp lines 208-222): `orders.push_back` inside its own
`lock_guard` block (lines 213-216), then `saveToFile()` (line 219), which
acquires the mutex again around the file write (line 184). -/
def createOrderTrace : List LockEvent :=
  [.locked [.appendOrder], .locked [.persistWrite]]

/-- Lock structure of `OrderManager::updateOrderStatus` (lines 272-285):
`findOrderById` locks only for the lookup (line 238), `order->setStatus`
(line 280) runs with no lock held, then `saveToFile()` (line 281) locks for
the write. -/
def updateOrderStatusTrace : List LockEvent :=
  [.locked [.readOrders], .unlocked .mutateStatus, .locked [.persistWrite]]

/-- Lock structure of one scheduler iteration that performed a transition
(`OrderManager::autoUpdateOrderStatus`, lines 385-412): the scan and the
`setStatus` calls are under one `lock_guard` (lines 386-408); `saveToFile()`
(line 411) runs after that block ends, locking again for the write. -/
def autoUpdateScanTrace : List LockEvent :=
  [.locked [.readOrders, .mutateStatus], .locked [.persistWrite]]

/-- Whether an access mutates the order collection. -/
def OrderAccess.isMutation : OrderAccess → Bool
  | .appendOrder => true
  | .mutateStatus => true
  | _ => false

/-- The claimed property of one method body: every mutation of the order
collection happens inside a critical section that also contains the
persistence write, so a concurrent reader can never run between the
in-memory mutation and the durable write. -/
def mutationPersistAtomic (tr : List LockEvent) : Bool :=
  tr.all fun ev =>
    match ev with
    | .locked cs =>
        !(cs.any OrderAccess.isMutation) || cs.contains .persistWrite
    | .unlocked a => !a.isMutation

/-- Every mutation of the order collection is at least performed while
holding the mutex. -/
def mutationsLocked (tr : List LockEvent) : Bool :=
  tr.all fun ev =>
    match ev with
    | .locked _ => true
    | .unlocked a => !a.isMutation

/-- Every persistence write is performed while holding the mutex. -/
def persistsLocked (tr : List LockEvent) : Bool :=
  tr.all fun ev =>
    match ev with
    | .locked _ => true
    | .unlocked a => !(a == .persistWrite)

/-- C3 counterexample: in none of the three mutating paths does the critical
section of a mutation also contain the persistence write — the mutex is
released between "mutate in memory" and "persist to durable storage". -/
theorem mutationPersistAtomic_fails :
    mutationPersistAtomic createOrderTrace = false ∧
    mutationPersistAtomic updateOrderStatusTrace = false ∧
    mutationPersistAtomic autoUpdateScanTrace = false := by
  decide

/-- C3 (amended): the collection append in `createOrder` and the scheduler's
scan-and-transition are performed under the orders mutex, and every
persistence write is performed under the mutex, but always in a separate
acquisition after the mutating critical section has been released; moreover
in `updateOrderStatus` the `setStatus` mutation itself runs with no lock
held. So mutation and persistence are not observed as a single atomic step. -/
theorem orderManager_lock_structure :
    mutationsLocked createOrderTrace = true ∧
    mutationsLocked autoUpdateScanTrace = true ∧
    mutationsLocked updateOrderStatusTrace = false ∧
    persistsLocked createOrderTrace = true ∧
    persistsLocked updateOrderStatusTrace = true ∧
    persistsLocked autoUpdateScanTrace = true ∧
    mutationPersistAtomic createOrderTrace = false ∧
    mutationPersistAtomic updateOrderStatusTrace = false ∧
    mutationPersistAtomic autoUpdateScanTrace = false := by
  decide

/-- `Item` data (Include/ItemManage/Item.h): the fields read by the
promotion-pricing path (`getItemId`, `getItemName`, `getPrice`) plus the
stock. -/
structure Item where
  itemId : String
  itemName : String
  price : ℚ
  stock : ℤ
deriving DecidableEq, Repr

/-- `PromotionType` enum (Include/Promotion/Promotion.h lines 19-22). -/
inductive PromotionType where
  | DISCOUNT
  | FULL_REDUCTION
deriving DecidableEq, Repr

/-- `Promotion` data (Include/Promotion/Promotion.h lines 34-48). -/
structure Promotion where
  promotionId : String
  promotionName : String
  promotionType : PromotionType
  isActive : Bool
  startTime : ℤ
  endTime : ℤ
  targetItemId : String
  discountRate : ℚ
  thresholdAmount : ℚ
  reductionAmount : ℚ
deriving DecidableEq, Repr

/-- `Promotion::isValid` (Src/Promotion/Promotion.cpp lines 69-76), with the
`time(nullptr)` read passed in as `now`. -/
def Promotion.isValid (p : Promotion) (now : ℤ) : Bool :=
  if !p.isActive then false
  else decide (p.startTime ≤ now ∧ now ≤ p.endTime)

/-- `Promotion::isApplicableToItem` (Promotion.cpp lines 85-96). -/
def Promotion.isApplicableToItem (p : Promotion) (itemId : String) : Bool :=
  if p.promotionType ≠ .DISCOUNT then false
  else if p.targetItemId = "-1" then true
  else p.targetItemId == itemId

/-- `Promotion::calculateDiscountForItem` (Promotion.cpp lines 104-110). -/
def Promotion.calculateDiscountForItem (p : Promotion) (originalPrice : ℚ) :
    ℚ :=
  if p.promotionType ≠ .DISCOUNT then originalPrice
  else originalPrice * p.discountRate

/-- `Promotion::calculateReduction` (Promotion.cpp lines 118-128). -/
def Promotion.calculateReduction (p : Promotion) (totalAmount : ℚ) : ℚ :=
  if p.promotionType ≠ .FULL_REDUCTION then 0
  else if p.thresholdAmount ≤ totalAmount then p.reductionAmount
  else 0

/-- `static_cast<int>` applied to a nonnegative-typical amount: truncation
toward zero, modelled on `ℚ` by T-division of numerator by denominator. -/
def ratTrunc (q : ℚ) : ℤ :=
  Int.tdiv q.num (q.den : ℤ)

/-- `Promotion::getDisplayTag` (Promotion.cpp lines 136-150). -/
def Promotion.getDisplayTag (p : Promotion) : String :=
  if p.promotionType = .DISCOUNT then
    toString (ratTrunc (p.discountRate * 10)) ++ "折"
  else
    "满" ++ toString (ratTrunc p.thresholdAmount) ++ "减" ++
      toString (ratTrunc p.reductionAmount)

/-- The candidate test of `getActiveDiscountForItem`'s loop (part_006 lines
424-426): a Discount promotion, currently valid and applicable to the item. -/
def discountCandidate (itemId : String) (now : ℤ) (p : Promotion) : Bool :=
  p.promotionType == .DISCOUNT && p.isValid now && p.isApplicableToItem itemId

/-- The accumulator update of the loop (lines 428-431): replace the best seen
so far when this promotion's rate is strictly lower. -/
def minRateStep (acc : Option Promotion × ℚ) (p : Promotion) :
    Option Promotion × ℚ :=
  if p.discountRate < acc.2 then (some p, p.discountRate) else acc

/-- One full loop iteration: the update runs only on candidates. -/
def bestDiscountStep (itemId : String) (now : ℤ)
    (acc : Option Promotion × ℚ) (p : Promotion) : Option Promotion × ℚ :=
  if discountCandidate itemId now p then minRateStep acc p else acc

/-- `PromotionManager::getActiveDiscountForItem` (src/unnamed/part_006 lines
418-436): linear scan keeping the valid applicable discount with the lowest
rate seen so far; `bestDiscount` starts as null with `bestRate = 1.0` and the
comparison is strict. -/
def PromotionManager.getActiveDiscountForItem (promotions : List Promotion)
    (itemId : String) (now : ℤ) : Option Promotion :=
  (promotions.foldl (bestDiscountStep itemId now) (none, 1)).1

/-- Insertion of one element into a list sorted ascending by
`thresholdAmount`. -/
def insertByThreshold (p : Promotion) : List Promotion → List Promotion
  | [] => [p]
  | q :: qs =>
      if p.thresholdAmount ≤ q.thresholdAmount then p :: q :: qs
      else q :: insertByThreshold p qs

/-- Ascending sort by `thresholdAmount`, modelling the `std::sort` call of
`getActiveFullReductions` (part_006 lines 452-455).  `std::sort` may produce
any comparator-consistent permutation; no theorem below depends on the
relative order of equal-threshold entries. -/
def sortByThreshold : List Promotion → List Promotion
  | [] => []
  | p :: ps => insertByThreshold p (sortByThreshold ps)

/-- `PromotionManager::getActiveFullReductions` (part_006 lines 441-458):
the currently valid full reductions, sorted ascending by threshold. -/
def PromotionManager.getActiveFullReductions (promotions : List Promotion)
    (now : ℤ) : List Promotion :=
  sortByThreshold (promotions.filter
    (fun p => p.promotionType == .FULL_REDUCTION && p.isValid now))

/-- `PromotionResult` struct (Include/Promotion/PromotionManager.h). -/
structure PromotionResult where
  originalTotal : ℚ
  afterDiscountTotal : ℚ
  finalTotal : ℚ
  totalSavings : ℚ
  appliedPromotions : List String
  itemDiscounts : List (String × ℚ)
  totalReduction : ℚ
deriving DecidableEq, Repr

/-- Running accumulator of the first loop of `calculatePromotionResult`
(part_006 lines 478-500): the four result fields that loop mutates. -/
structure DiscountPhaseAcc where
  originalTotal : ℚ
  afterDiscountTotal : ℚ
  itemDiscounts : List (String × ℚ)
  appliedPromotions : List String
deriving DecidableEq, Repr

/-- One iteration of the first loop of `calculatePromotionResult`. -/
def discountStep (promotions : List Promotion) (now : ℤ)
    (acc : DiscountPhaseAcc) (iq : Item × ℤ) : DiscountPhaseAcc :=
  let item := iq.1
  let quantity := iq.2
  let itemOriginalPrice := item.price * (quantity : ℚ)
  match PromotionManager.getActiveDiscountForItem promotions item.itemId now
    with
  | some discount =>
      let discountedPrice :=
        discount.calculateDiscountForItem item.price * (quantity : ℚ)
      { originalTotal := acc.originalTotal + itemOriginalPrice,
        afterDiscountTotal := acc.afterDiscountTotal + discountedPrice,
        itemDiscounts := acc.itemDiscounts ++
          [(item.itemName, itemOriginalPrice - discountedPrice)],
        appliedPromotions := acc.appliedPromotions ++
          [item.itemName ++ " " ++ discount.getDisplayTag] }
  | none =>
      { acc with originalTotal := acc.originalTotal + itemOriginalPrice,
                 afterDiscountTotal :=
                   acc.afterDiscountTotal + itemOriginalPrice }

/-- One iteration of the second loop of `calculatePromotionResult` (part_006
lines 504-510): the threshold test is made against the fixed `base`. -/
def reductionStep (base : ℚ) (acc : ℚ × List String) (r : Promotion) :
    ℚ × List String :=
  let reductionAmount := r.calculateReduction base
  if 0 < reductionAmount then
    (acc.1 + reductionAmount, acc.2 ++ [r.getDisplayTag])
  else acc

/-- `PromotionManager::calculatePromotionResult` (part_006 lines 469-517). -/
def PromotionManager.calculatePromotionResult (promotions : List Promotion)
    (items : List (Item × ℤ)) (now : ℤ) : PromotionResult :=
  let d := items.foldl (discountStep promotions now) ⟨0, 0, [], []⟩
  let fullReductions := PromotionManager.getActiveFullReductions promotions now
  let rphase := fullReductions.foldl (reductionStep d.afterDiscountTotal)
    (0, [])
  { originalTotal := d.originalTotal,
    afterDiscountTotal := d.afterDiscountTotal,
    finalTotal := d.afterDiscountTotal - rphase.1,
    totalSavings := d.originalTotal - (d.afterDiscountTotal - rphase.1),
    appliedPromotions := d.appliedPromotions ++ rphase.2,
    itemDiscounts := d.itemDiscounts,
    totalReduction := rphase.1 }

/-- Insertion keeps the same multiset of promotions. -/
theorem insertByThreshold_perm (p : Promotion) (l : List Promotion) :
    List.Perm (insertByThreshold p l) (p :: l) := by
  induction l with
  | nil => exact List.Perm.refl _
  | cons q qs ih =>
    by_cases h : p.thresholdAmount ≤ q.thresholdAmount
    · simp [insertByThreshold, h]
    · simp only [insertByThreshold, if_neg h]
      exact (ih.cons q).trans (List.Perm.swap p q qs)

/-- The threshold sort is a permutation. -/
theorem sortByThreshold_perm (l : List Promotion) :
    List.Perm (sortByThreshold l) l := by
  induction l with
  | nil => exact List.Perm.refl _
  | cons p ps ih =>
    exact (insertByThreshold_perm p (sortByThreshold ps)).trans (ih.cons p)

/-- The second pricing loop adds exactly the `reductionAmount` of every full
reduction whose threshold is met by the fixed base, assuming positive
reduction amounts. -/
theorem reduction_foldl_sum (base : ℚ) (rs : List Promotion)
    (init : ℚ × List String)
    (hfr : ∀ r ∈ rs, r.promotionType = .FULL_REDUCTION ∧
      0 < r.reductionAmount) :
    (rs.foldl (reductionStep base) init).1 =
      init.1 + ((rs.filter (fun r =>
          decide (r.thresholdAmount ≤ base))).map
        Promotion.reductionAmount).sum := by
  induction rs generalizing init with
  | nil => simp
  | cons r rs ih =>
    obtain ⟨hty, hpos⟩ := hfr r (List.mem_cons_self _ _)
    have hrest : ∀ x ∈ rs, x.promotionType = .FULL_REDUCTION ∧
        0 < x.reductionAmount :=
      fun x hx => hfr x (List.mem_cons_of_mem _ hx)
    rw [List.foldl_cons, List.filter_cons]
    by_cases hth : r.thresholdAmount ≤ base
    · have hamt : r.calculateReduction base = r.reductionAmount := by
        simp [Promotion.calculateReduction, hty, hth]
      have hstep : reductionStep base init r =
          (init.1 + r.reductionAmount, init.2 ++ [r.getDisplayTag]) := by
        simp [reductionStep, hamt, hpos]
      rw [hstep, ih _ hrest, if_pos (by simpa using hth)]
      simp [add_assoc]
    · have hamt : r.calculateReduction base = 0 := by
        simp [Promotion.calculateReduction, hty, hth]
      have hstep : reductionStep base init r = init := by
        simp [reductionStep, hamt]
      rw [hstep, ih _ hrest, if_neg (by simpa using hth)]

/-- If no reduction triggers against the base (its computed amount is never
positive), the second pricing loop leaves the accumulator untouched. -/
theorem reduction_foldl_no_trigger (base : ℚ) (rs : List Promotion)
    (init : ℚ × List String)
    (h : ∀ r ∈ rs, ¬ 0 < r.calculateReduction base) :
    rs.foldl (reductionStep base) init = init := by
  induction rs generalizing init with
  | nil => rfl
  | cons r rs ih =>
    rw [List.foldl_cons]
    have hstep : reductionStep base init r = init := by
      simp [reductionStep, h r (List.mem_cons_self _ _)]
    rw [hstep]
    exact ih _ (fun x hx => h x (List.mem_cons_of_mem _ hx))

/-- Members of `getActiveFullReductions` are valid full reductions drawn from
the catalog. -/
theorem mem_getActiveFullReductions (promotions : List Promotion) (now : ℤ)
    (r : Promotion)
    (hr : r ∈ PromotionManager.getActiveFullReductions promotions now) :
    r ∈ promotions ∧ r.promotionType = .FULL_REDUCTION ∧
      r.isValid now = true := by
  have hr2 := ((sortByThreshold_perm _).mem_iff).mp hr
  obtain ⟨hmem, hcond⟩ := List.mem_filter.mp hr2
  have hc : r.promotionType = .FULL_REDUCTION ∧ r.isValid now = true := by
    simpa using hcond
  exact ⟨hmem, hc.1, hc.2⟩

/-- C4: the pricing computation tests every currently valid full reduction
against the one fixed `afterDiscountTotal`; each one whose threshold is met
contributes its full `reductionAmount` to `totalReduction` (amounts are
positive per the data model), and `finalTotal` is `afterDiscountTotal`
minus `totalReduction`. -/
theorem calculatePromotionResult_stacks (promotions : List Promotion)
    (items : List (Item × ℤ)) (now : ℤ)
    (hpos : ∀ p ∈ promotions, p.promotionType = .FULL_REDUCTION →
      p.isValid now = true → 0 < p.reductionAmount) :
    (PromotionManager.calculatePromotionResult promotions items
        now).totalReduction =
      (((promotions.filter (fun p => p.promotionType == .FULL_REDUCTION &&
          p.isValid now)).filter (fun p => decide (p.thresholdAmount ≤
            (PromotionManager.calculatePromotionResult promotions items
              now).afterDiscountTotal))).map
        Promotion.reductionAmount).sum ∧
    (PromotionManager.calculatePromotionResult promotions items
        now).finalTotal =
      (PromotionManager.calculatePromotionResult promotions items
        now).afterDiscountTotal -
      (PromotionManager.calculatePromotionResult promotions items
        now).totalReduction := by
  refine ⟨?_, rfl⟩
  have hfr : ∀ r ∈ PromotionManager.getActiveFullReductions promotions now,
      r.promotionType = .FULL_REDUCTION ∧ 0 < r.reductionAmount := by
    intro r hr
    obtain ⟨hmem, hty, hv⟩ := mem_getActiveFullReductions promotions now r hr
    exact ⟨hty, hpos r hmem hty hv⟩
  have h1 : (PromotionManager.calculatePromotionResult promotions items
      now).totalReduction =
      ((PromotionManager.getActiveFullReductions promotions now).foldl
        (reductionStep ((items.foldl (discountStep promotions now)
          ⟨0, 0, [], []⟩).afterDiscountTotal)) (0, [])).1 := rfl
  rw [h1, reduction_foldl_sum _ _ _ hfr, zero_add]
  exact List.Perm.sum_eq
    (List.Perm.map _ (List.Perm.filter _ (sortByThreshold_perm _)))

/-- Currently-valid full reduction: spend 300, save 50. -/
def fr300 : Promotion :=
  ⟨"PROMO001", "FR300", .FULL_REDUCTION, true, 0, 1000, "", 1, 300, 50⟩

/-- Currently-valid full reduction: spend 500, save 100. -/
def fr500 : Promotion :=
  ⟨"PROMO002", "FR500", .FULL_REDUCTION, true, 0, 1000, "", 1, 500, 100⟩

/-- A 600-priced item with no applicable discount. -/
def itemX600 : Item := ⟨"X", "X", 600, 10⟩

/-- C4 witness: with the 300/50 and 500/100 reductions valid and an
undiscounted 600 basket, `afterDiscountTotal = 600` and both reductions
stack: `totalReduction = 150`; the general theorem instantiates there. -/
theorem calculatePromotionResult_stacks_inst :
    (PromotionManager.calculatePromotionResult [fr300, fr500]
      [(itemX600, 1)] 5).afterDiscountTotal = 600 ∧
    (PromotionManager.calculatePromotionResult [fr300, fr500]
      [(itemX600, 1)] 5).totalReduction = 150 ∧
    ((PromotionManager.calculatePromotionResult [fr300, fr500]
        [(itemX600, 1)] 5).totalReduction =
      ((([fr300, fr500].filter (fun p =>
          p.promotionType == .FULL_REDUCTION &&
          p.isValid 5)).filter (fun p => decide (p.thresholdAmount ≤
            (PromotionManager.calculatePromotionResult [fr300, fr500]
              [(itemX600, 1)] 5).afterDiscountTotal))).map
        Promotion.reductionAmount).sum ∧
    (PromotionManager.calculatePromotionResult [fr300, fr500]
        [(itemX600, 1)] 5).finalTotal =
      (PromotionManager.calculatePromotionResult [fr300, fr500]
        [(itemX600, 1)] 5).afterDiscountTotal -
      (PromotionManager.calculatePromotionResult [fr300, fr500]
        [(itemX600, 1)] 5).totalReduction) :=
  ⟨by norm_num [PromotionManager.calculatePromotionResult,
      PromotionManager.getActiveFullReductions,
      PromotionManager.getActiveDiscountForItem, bestDiscountStep,
      minRateStep, discountCandidate, discountStep, reductionStep,
      sortByThreshold, insertByThreshold, Promotion.isValid,
      Promotion.isApplicableToItem, Promotion.calculateReduction,
      Promotion.calculateDiscountForItem, fr300, fr500, itemX600,
      List.foldl, List.filter],
    by norm_num [PromotionManager.calculatePromotionResult,
      PromotionManager.getActiveFullReductions,
      PromotionManager.getActiveDiscountForItem, bestDiscountStep,
      minRateStep, discountCandidate, discountStep, reductionStep,
      sortByThreshold, insertByThreshold, Promotion.isValid,
      Promotion.isApplicableToItem, Promotion.calculateReduction,
      Promotion.calculateDiscountForItem, fr300, fr500, itemX600,
      List.foldl, List.filter],
    calculatePromotionResult_stacks [fr300, fr500] [(itemX600, 1)] 5
      (by decide)⟩

/-- C9: the empty basket yields the all-zero result with empty lists — also
when valid full reductions with positive thresholds exist — and the
computation is total (no error path exists). -/
theorem calculatePromotionResult_empty_basket (promotions : List Promotion)
    (now : ℤ)
    (hthr : ∀ p ∈ promotions, p.promotionType = .FULL_REDUCTION →
      p.isValid now = true → 0 < p.thresholdAmount) :
    PromotionManager.calculatePromotionResult promotions [] now =
      { originalTotal := 0, afterDiscountTotal := 0, finalTotal := 0,
        totalSavings := 0, appliedPromotions := [], itemDiscounts := [],
        totalReduction := 0 } := by
  have hnt : ∀ r ∈ PromotionManager.getActiveFullReductions promotions now,
      ¬ 0 < r.calculateReduction 0 := by
    intro r hr
    obtain ⟨hmem, hty, hv⟩ := mem_getActiveFullReductions promotions now r hr
    have hth := hthr r hmem hty hv
    have hz : r.calculateReduction 0 = 0 := by
      simp [Promotion.calculateReduction, hty, not_le.mpr hth]
    simp [hz]
  have hred := reduction_foldl_no_trigger 0
    (PromotionManager.getActiveFullReductions promotions now) (0, []) hnt
  have hb : (List.foldl (discountStep promotions now) ⟨0, 0, [], []⟩
      ([] : List (Item × ℤ))).afterDiscountTotal = 0 := rfl
  simp only [PromotionManager.calculatePromotionResult, List.foldl_nil, hb]
  rw [hred]
  simp

/-- C9 witness: the general theorem instantiated on a catalog holding the
two valid positive-threshold reductions. -/
theorem calculatePromotionResult_empty_basket_inst :
    PromotionManager.calculatePromotionResult [fr300, fr500] [] 5 =
      { originalTotal := 0, afterDiscountTotal := 0, finalTotal := 0,
        totalSavings := 0, appliedPromotions := [], itemDiscounts := [],
        totalReduction := 0 } :=
  calculatePromotionResult_empty_basket [fr300, fr500] 5 (by decide)

/-- `find?` only depends on the predicate's values on the list members. -/
theorem find?_congr_mem {α : Type} (l : List α) (p q : α → Bool)
    (h : ∀ x ∈ l, p x = q x) : l.find? p = l.find? q := by
  induction l with
  | nil => rfl
  | cons a l ih =>
    have ha := h a (List.mem_cons_self _ _)
    cases hq : q a
    · rw [List.find?_cons_of_neg _ (by rw [ha, hq]; exact Bool.false_ne_true),
        List.find?_cons_of_neg _ (by rw [hq]; exact Bool.false_ne_true)]
      exact ih (fun x hx => h x (List.mem_cons_of_mem _ hx))
    · rw [List.find?_cons_of_pos _ (by rw [ha, hq]),
        List.find?_cons_of_pos _ hq]

/-- Spec-side selection rule of claim C5: the first list element whose
`discountRate` is less than or equal to every element's rate — that is, the
first element attaining the minimum rate; `none` on the empty list. -/
def firstMinByRate (l : List Promotion) : Option Promotion :=
  l.find? (fun p => l.all (fun q => decide (p.discountRate ≤ q.discountRate)))

/-- Spec-side `getActiveDiscountForItem` as claim C5 words it: among the
candidate promotions, in storage order, the first one with the lowest
`discountRate`. -/
def specBestDiscount (promotions : List Promotion) (itemId : String)
    (now : ℤ) : Option Promotion :=
  firstMinByRate (promotions.filter (discountCandidate itemId now))

/-- Dropping a head that is strictly beaten by the next element does not
change the first minimum. -/
theorem firstMinByRate_drop_head (p₀ c : Promotion) (cs : List Promotion)
    (h : c.discountRate < p₀.discountRate) :
    firstMinByRate (p₀ :: c :: cs) = firstMinByRate (c :: cs) := by
  unfold firstMinByRate
  have hfail : ((p₀ :: c :: cs).all
      (fun q => decide (p₀.discountRate ≤ q.discountRate))) = false := by
    refine List.all_eq_false.mpr ⟨c, ?_, ?_⟩
    · exact List.mem_cons_of_mem _ (List.mem_cons_self _ _)
    · simp [not_le.mpr h]
  rw [List.find?_cons_of_neg _ (by rw [hfail]; exact Bool.false_ne_true)]
  refine find?_congr_mem (c :: cs) _ _ ?_
  intro x hx
  rw [List.all_cons]
  cases hall : (c :: cs).all (fun q => decide (x.discountRate ≤ q.discountRate))
  · simp
  · have hxc : x.discountRate ≤ c.discountRate := by
      have := List.all_eq_true.mp hall c (List.mem_cons_self _ _)
      simpa using this
    have hxp : x.discountRate ≤ p₀.discountRate := le_of_lt (lt_of_le_of_lt hxc h)
    simp [hxp]

/-- Dropping a later element that does not strictly beat the head does not
change the first minimum. -/
theorem firstMinByRate_drop_second (p₀ c : Promotion) (cs : List Promotion)
    (h : p₀.discountRate ≤ c.discountRate) :
    firstMinByRate (p₀ :: c :: cs) = firstMinByRate (p₀ :: cs) := by
  unfold firstMinByRate
  cases hp : cs.all (fun q => decide (p₀.discountRate ≤ q.discountRate)) with
  | true =>
    have h1 : ((p₀ :: c :: cs).all
        (fun q => decide (p₀.discountRate ≤ q.discountRate))) = true := by
      simp only [List.all_cons, hp]
      simp [h]
    have h2 : ((p₀ :: cs).all
        (fun q => decide (p₀.discountRate ≤ q.discountRate))) = true := by
      simp only [List.all_cons, hp]
      simp
    have e1 : List.find? (fun p => (p₀ :: c :: cs).all
          (fun q => decide (p.discountRate ≤ q.discountRate)))
          (p₀ :: c :: cs) = some p₀ :=
      List.find?_cons_of_pos _ h1
    have e2 : List.find? (fun p => (p₀ :: cs).all
          (fun q => decide (p.discountRate ≤ q.discountRate)))
          (p₀ :: cs) = some p₀ :=
      List.find?_cons_of_pos _ h2
    rw [e1, e2]
  | false =>
    have h1 : ((p₀ :: c :: cs).all
        (fun q => decide (p₀.discountRate ≤ q.discountRate))) = false := by
      obtain ⟨x, hx, hxf⟩ := List.all_eq_false.mp hp
      exact List.all_eq_false.mpr
        ⟨x, List.mem_cons_of_mem _ (List.mem_cons_of_mem _ hx), hxf⟩
    have h2 : ((p₀ :: cs).all
        (fun q => decide (p₀.discountRate ≤ q.discountRate))) = false := by
      obtain ⟨x, hx, hxf⟩ := List.all_eq_false.mp hp
      exact List.all_eq_false.mpr ⟨x, List.mem_cons_of_mem _ hx, hxf⟩
    have hcfail : ((p₀ :: c :: cs).all
        (fun q => decide (c.discountRate ≤ q.discountRate))) = false := by
      cases hcall : ((p₀ :: c :: cs).all
          (fun q => decide (c.discountRate ≤ q.discountRate))) with
      | false => rfl
      | true =>
        exfalso
        have hcp : c.discountRate ≤ p₀.discountRate := by
          have := List.all_eq_true.mp hcall p₀ (List.mem_cons_self _ _)
          simpa using this
        have heq : p₀.discountRate = c.discountRate := le_antisymm h hcp
        have hcs : cs.all
            (fun q => decide (p₀.discountRate ≤ q.discountRate)) = true := by
          refine List.all_eq_true.mpr ?_
          intro x hx
          have := List.all_eq_true.mp hcall x
            (List.mem_cons_of_mem _ (List.mem_cons_of_mem _ hx))
          simpa [heq] using this
        rw [hp] at hcs
        exact Bool.false_ne_true hcs
    have e1 : List.find? (fun p => (p₀ :: c :: cs).all
          (fun q => decide (p.discountRate ≤ q.discountRate)))
          (p₀ :: c :: cs) =
        List.find? (fun p => (p₀ :: c :: cs).all
          (fun q => decide (p.discountRate ≤ q.discountRate))) (c :: cs) :=
      List.find?_cons_of_neg _ (by rw [h1]; exact Bool.false_ne_true)
    have e2 : List.find? (fun p => (p₀ :: c :: cs).all
          (fun q => decide (p.discountRate ≤ q.discountRate))) (c :: cs) =
        List.find? (fun p => (p₀ :: c :: cs).all
          (fun q => decide (p.discountRate ≤ q.discountRate))) cs :=
      List.find?_cons_of_neg _ (by rw [hcfail]; exact Bool.false_ne_true)
    have e3 : List.find? (fun p => (p₀ :: cs).all
          (fun q => decide (p.discountRate ≤ q.discountRate)))
          (p₀ :: cs) =
        List.find? (fun p => (p₀ :: cs).all
          (fun q => decide (p.discountRate ≤ q.discountRate))) cs :=
      List.find?_cons_of_neg _ (by rw [h2]; exact Bool.false_ne_true)
    rw [e1, e2, e3]
    refine find?_congr_mem cs _ _ ?_
    intro x hx
    simp only [List.all_cons]
    cases hxp : decide (x.discountRate ≤ p₀.discountRate) with
    | false => simp at hxp; simp [not_le.mpr hxp]
    | true =>
      simp at hxp
      have hxc : x.discountRate ≤ c.discountRate := le_trans hxp h
      simp [hxp, hxc]

/-- Characterization of the strict-minimum fold: starting from a seen
promotion `p₀` it returns exactly the first minimum-rate element of
`p₀ :: cs` together with its rate. -/
theorem minRateFold_firstMin (cs : List Promotion) : ∀ p₀ : Promotion,
    ∃ q, firstMinByRate (p₀ :: cs) = some q ∧
      cs.foldl minRateStep (some p₀, p₀.discountRate) =
        (some q, q.discountRate) := by
  induction cs with
  | nil =>
    intro p₀
    refine ⟨p₀, ?_, rfl⟩
    unfold firstMinByRate
    rw [List.find?_cons_of_pos _ (by simp)]
  | cons c cs ih =>
    intro p₀
    by_cases hlt : c.discountRate < p₀.discountRate
    · obtain ⟨q, hq1, hq2⟩ := ih c
      refine ⟨q, ?_, ?_⟩
      · rw [firstMinByRate_drop_head p₀ c cs hlt]
        exact hq1
      · rw [List.foldl_cons]
        have hstep : minRateStep (some p₀, p₀.discountRate) c =
            (some c, c.discountRate) := by
          simp [minRateStep, hlt]
        rw [hstep]
        exact hq2
    · obtain ⟨q, hq1, hq2⟩ := ih p₀
      refine ⟨q, ?_, ?_⟩
      · rw [firstMinByRate_drop_second p₀ c cs (le_of_not_lt hlt)]
        exact hq1
      · rw [List.foldl_cons]
        have hstep : minRateStep (some p₀, p₀.discountRate) c =
            (some p₀, p₀.discountRate) := by
          simp [minRateStep, hlt]
        rw [hstep]
        exact hq2

/-- Folding the loop body over the whole catalog equals folding the bare
update over the candidate sublist. -/
theorem bestDiscount_foldl_filter (itemId : String) (now : ℤ)
    (l : List Promotion) (init : Option Promotion × ℚ) :
    l.foldl (bestDiscountStep itemId now) init =
      (l.filter (discountCandidate itemId now)).foldl minRateStep init := by
  induction l generalizing init with
  | nil => rfl
  | cons p l ih =>
    rw [List.foldl_cons, List.filter_cons]
    by_cases h : discountCandidate itemId now p = true
    · rw [if_pos h, List.foldl_cons]
      have hstep : bestDiscountStep itemId now init p = minRateStep init p := by
        simp [bestDiscountStep, h]
      rw [hstep]
      exact ih _
    · rw [if_neg h]
      have hstep : bestDiscountStep itemId now init p = init := by
        simp only [bestDiscountStep]
        rw [if_neg h]
      rw [hstep]
      exact ih _

/-- C5: for every item id and catalog whose candidate discounts have rates
in the valid range (below 1, per the data model), `getActiveDiscountForItem`
returns the first candidate with the lowest `discountRate`, and `none` when
no candidate exists. -/
theorem getActiveDiscountForItem_min_rate (promotions : List Promotion)
    (itemId : String) (now : ℤ)
    (hrate : ∀ p ∈ promotions, discountCandidate itemId now p = true →
      p.discountRate < 1) :
    PromotionManager.getActiveDiscountForItem promotions itemId now =
      specBestDiscount promotions itemId now := by
  unfold PromotionManager.getActiveDiscountForItem specBestDiscount
  rw [bestDiscount_foldl_filter]
  cases hc : promotions.filter (discountCandidate itemId now) with
  | nil => rfl
  | cons c cs =>
    have hcmem : c ∈ promotions.filter (discountCandidate itemId now) := by
      rw [hc]; exact List.mem_cons_self _ _
    obtain ⟨hcp, hcand⟩ := List.mem_filter.mp hcmem
    have hclt : c.discountRate < 1 := hrate c hcp hcand
    rw [List.foldl_cons]
    have hstep : minRateStep (none, 1) c = (some c, c.discountRate) := by
      simp [minRateStep, hclt]
    rw [hstep]
    obtain ⟨q, hq1, hq2⟩ := minRateFold_firstMin cs c
    rw [hq2, hq1]

/-- Store-wide discount at rate 9/10 (applies to every item). -/
def disc90 : Promotion :=
  ⟨"PROMO003", "D90", .DISCOUNT, true, 0, 1000, "-1", 9 / 10, 0, 0⟩

/-- Item-X discount at the deeper rate 4/5. -/
def disc80 : Promotion :=
  ⟨"PROMO004", "D80", .DISCOUNT, true, 0, 1000, "X", 4 / 5, 0, 0⟩

/-- C5 witness: the theorem instantiated on a catalog holding two valid
discounts applicable to item `X` (rates 9/10 then 4/5) and one full
reduction. -/
theorem getActiveDiscountForItem_min_rate_inst :
    PromotionManager.getActiveDiscountForItem [disc90, disc80, fr300] "X" 5 =
      specBestDiscount [disc90, disc80, fr300] "X" 5 :=
  getActiveDiscountForItem_min_rate [disc90, disc80, fr300] "X" 5 (by
    intro p hp hc
    fin_cases hp
    · norm_num [disc90]
    · norm_num [disc80]
    · simp [fr300, discountCandidate] at hc)

/-- `Order::setStatus` (Src/Order/Order.cpp lines 118-121): replace the
status and refresh `statusChangeTime` with the `time(nullptr)` read, passed
in as `now`. -/
def Order.setStatus (o : Order) (newStatus : OrderStatus) (now : ℤ) : Order :=
  { o with status := newStatus, statusChangeTime := now }

/-- Rank of a status along the forward lifecycle
Pending → Shipped → Delivered. -/
def statusRank : OrderStatus → ℕ
  | .PENDING => 0
  | .SHIPPED => 1
  | .DELIVERED => 2

/-- The per-order rule of one scheduler scan (Src/Order/OrderManager.cpp
lines 388-407): Pending → Shipped once `pendingToShippedSeconds` have
elapsed since the last status change, else Shipped → Delivered once
`shippedToDeliveredSeconds` have elapsed; the Bool reports whether a
transition occurred.  The `time(nullptr)` re-read inside `setStatus` is
identified with the scan's `currentTime`. -/
def stepOrder (p2s s2d now : ℤ) (o : Order) : Order × Bool :=
  if o.status = .PENDING ∧ p2s ≤ now - o.statusChangeTime then
    (o.setStatus .SHIPPED now, true)
  else if o.status = .SHIPPED ∧ s2d ≤ now - o.statusChangeTime then
    (o.setStatus .DELIVERED now, true)
  else (o, false)

/-- One whole scan over the collection plus the trailing conditional save
(lines 382-412): the updated orders and the number of `saveToFile` calls
performed after the scan (1 when `needSave` was set, else 0). -/
def autoUpdateScan (p2s s2d now : ℤ) (orders : List Order) :
    List Order × ℕ :=
  let scanned := orders.map (stepOrder p2s s2d now)
  let needSave := scanned.any (fun ob => ob.2)
  (scanned.map (fun ob => ob.1), if needSave then 1 else 0)

/-- Exhaustive characterization of one scheduler step on one order. -/
theorem stepOrder_char (p2s s2d now : ℤ) (o : Order) :
    (o.status = .PENDING ∧ p2s ≤ now - o.statusChangeTime ∧
      stepOrder p2s s2d now o = (o.setStatus .SHIPPED now, true)) ∨
    (o.status = .SHIPPED ∧ s2d ≤ now - o.statusChangeTime ∧
      stepOrder p2s s2d now o = (o.setStatus .DELIVERED now, true)) ∨
    (stepOrder p2s s2d now o = (o, false) ∧
      ¬(o.status = .PENDING ∧ p2s ≤ now - o.statusChangeTime) ∧
      ¬(o.status = .SHIPPED ∧ s2d ≤ now - o.statusChangeTime)) := by
  unfold stepOrder
  by_cases h1 : o.status = .PENDING ∧ p2s ≤ now - o.statusChangeTime
  · exact Or.inl ⟨h1.1, h1.2, by rw [if_pos h1]⟩
  · by_cases h2 : o.status = .SHIPPED ∧ s2d ≤ now - o.statusChangeTime
    · refine Or.inr (Or.inl ⟨h2.1, h2.2, ?_⟩)
      rw [if_neg h1, if_pos h2]
    · exact Or.inr (Or.inr ⟨by rw [if_neg h1, if_neg h2], h1, h2⟩)

/-- The step's transition flag is set exactly when the status changed. -/
theorem stepOrder_flag (p2s s2d now : ℤ) (o : Order) :
    (stepOrder p2s s2d now o).2 = true ↔
      (stepOrder p2s s2d now o).1.status ≠ o.status := by
  rcases stepOrder_char p2s s2d now o with ⟨h1, -, he⟩ | ⟨h1, -, he⟩ |
    ⟨he, -, -⟩
  · rw [he]; simp [Order.setStatus, h1]
  · rw [he]; simp [Order.setStatus, h1]
  · rw [he]; simp

/-- C6: in one scheduler scan, every order advances by the one-step rule
(Pending → Shipped after `p2s`, else Shipped → Delivered after `s2d`);
rank never decreases and increases by at most one, Delivered is a fixed
point, and the collection is persisted exactly once after the scan iff at
least one order made a transition. -/
theorem autoUpdateScan_props (p2s s2d now : ℤ) (orders : List Order) :
    ((autoUpdateScan p2s s2d now orders).2 = 1 ↔
      ∃ o ∈ orders, (stepOrder p2s s2d now o).1.status ≠ o.status) ∧
    (autoUpdateScan p2s s2d now orders).2 ≤ 1 ∧
    (autoUpdateScan p2s s2d now orders).1 =
      orders.map (fun o => (stepOrder p2s s2d now o).1) ∧
    (∀ o : Order, o.status = .PENDING → p2s ≤ now - o.statusChangeTime →
      (stepOrder p2s s2d now o).1 = o.setStatus .SHIPPED now) ∧
    (∀ o : Order, o.status = .SHIPPED → s2d ≤ now - o.statusChangeTime →
      (stepOrder p2s s2d now o).1 = o.setStatus .DELIVERED now) ∧
    (∀ o : Order,
      statusRank o.status ≤ statusRank (stepOrder p2s s2d now o).1.status) ∧
    (∀ o : Order,
      statusRank (stepOrder p2s s2d now o).1.status ≤
        statusRank o.status + 1) ∧
    (∀ o : Order, o.status = .DELIVERED →
      (stepOrder p2s s2d now o).1 = o) := by
  have hany : (orders.map (stepOrder p2s s2d now)).any (fun ob => ob.2) =
      orders.any (fun o => (stepOrder p2s s2d now o).2) := by
    induction orders with
    | nil => rfl
    | cons o os ih => simp only [List.map_cons, List.any_cons, ih]
  refine ⟨?_, ?_, ?_, ?_, ?_, ?_, ?_, ?_⟩
  · show (if (orders.map (stepOrder p2s s2d now)).any (fun ob => ob.2) then 1
      else 0) = 1 ↔ _
    rw [hany]
    constructor
    · intro h1
      by_cases hsave : orders.any (fun o => (stepOrder p2s s2d now o).2) =
        true
      · obtain ⟨o, ho, hflag⟩ := List.any_eq_true.mp hsave
        exact ⟨o, ho, (stepOrder_flag p2s s2d now o).mp hflag⟩
      · rw [if_neg hsave] at h1; cases h1
    · rintro ⟨o, ho, hne⟩
      have hflag := (stepOrder_flag p2s s2d now o).mpr hne
      have hsave : orders.any (fun o => (stepOrder p2s s2d now o).2) = true :=
        List.any_eq_true.mpr ⟨o, ho, hflag⟩
      rw [if_pos hsave]
  · show (if (orders.map (stepOrder p2s s2d now)).any (fun ob => ob.2) then 1
      else 0) ≤ 1
    by_cases h : (orders.map (stepOrder p2s s2d now)).any (fun ob => ob.2) =
      true
    · rw [if_pos h]
    · rw [if_neg h]; omega
  · show ((orders.map (stepOrder p2s s2d now)).map (fun ob => ob.1)) = _
    rw [List.map_map]
    rfl
  · intro o h1 h2
    rcases stepOrder_char p2s s2d now o with ⟨-, -, he⟩ | ⟨hs, -, -⟩ |
      ⟨-, hn, -⟩
    · rw [he]
    · rw [h1] at hs; cases hs
    · exact absurd ⟨h1, h2⟩ hn
  · intro o h1 h2
    rcases stepOrder_char p2s s2d now o with ⟨hs, -, -⟩ | ⟨-, -, he⟩ |
      ⟨-, -, hn⟩
    · rw [h1] at hs; cases hs
    · rw [he]
    · exact absurd ⟨h1, h2⟩ hn
  · intro o
    rcases stepOrder_char p2s s2d now o with ⟨h1, -, he⟩ | ⟨h1, -, he⟩ |
      ⟨he, -, -⟩
    · rw [he, h1]; simp [Order.setStatus, statusRank]
    · rw [he, h1]; simp [Order.setStatus, statusRank]
    · rw [he]
  · intro o
    rcases stepOrder_char p2s s2d now o with ⟨h1, -, he⟩ | ⟨h1, -, he⟩ |
      ⟨he, -, -⟩
    · rw [he, h1]; simp [Order.setStatus, statusRank]
    · rw [he, h1]; simp [Order.setStatus, statusRank]
    · rw [he]; exact Nat.le_succ (statusRank o.status)
  · intro o hd
    rcases stepOrder_char p2s s2d now o with ⟨h1, -, -⟩ | ⟨h1, -, -⟩ |
      ⟨he, -, -⟩
    · rw [hd] at h1; cases h1
    · rw [hd] at h1; cases h1
    · rw [he]

/-- A pending order whose timer elapsed. -/
def demoPend : Order := ⟨"O1", "u", [], 0, 0, "addr", .PENDING, 0⟩

/-- C6 witness: at `now = 50` with durations 10/20, the pending demo order
transitions to Shipped and the scan saves exactly once. -/
theorem autoUpdateScan_props_inst :
    (stepOrder 10 20 50 demoPend).1 = demoPend.setStatus .SHIPPED 50 ∧
    (autoUpdateScan 10 20 50 [demoPend]).2 = 1 :=
  ⟨(autoUpdateScan_props 10 20 50 [demoPend]).2.2.2.1 demoPend rfl
      (by decide),
    (autoUpdateScan_props 10 20 50 [demoPend]).1.mpr
      ⟨demoPend, List.mem_cons_self _ _, by decide⟩⟩

/-- A sequence of `setStatus` calls applied to an order: each event carries
the new status and the `time(nullptr)` instant of the call. -/
def applyStatusEvents (o : Order) : List (OrderStatus × ℤ) → Order
  | [] => o
  | e :: rest => applyStatusEvents (o.setStatus e.1 e.2) rest

/-- The clock instants of the events never decrease, starting from `t0`. -/
def timesMonotone (t0 : ℤ) : List (OrderStatus × ℤ) → Prop
  | [] => True
  | e :: rest => t0 ≤ e.2 ∧ timesMonotone e.2 rest

/-- The instant of the last event, `d` when there is none. -/
def lastEventTime (d : ℤ) : List (OrderStatus × ℤ) → ℤ
  | [] => d
  | e :: rest => lastEventTime e.2 rest

/-- After any event sequence, `statusChangeTime` is the instant of the most
recent transition. -/
theorem applyStatusEvents_last (o : Order)
    (events : List (OrderStatus × ℤ)) :
    (applyStatusEvents o events).statusChangeTime =
      lastEventTime o.statusChangeTime events := by
  induction events generalizing o with
  | nil => rfl
  | cons e rest ih => exact ih (o.setStatus e.1 e.2)

/-- Splitting an event sequence splits the application. -/
theorem applyStatusEvents_append (o : Order)
    (l1 l2 : List (OrderStatus × ℤ)) :
    applyStatusEvents o (l1 ++ l2) =
      applyStatusEvents (applyStatusEvents o l1) l2 := by
  induction l1 generalizing o with
  | nil => rfl
  | cons e rest ih => exact ih (o.setStatus e.1 e.2)

/-- With a monotone clock, applying events never decreases
`statusChangeTime`. -/
theorem applyStatusEvents_time_ge (o : Order)
    (events : List (OrderStatus × ℤ))
    (h : timesMonotone o.statusChangeTime events) :
    o.statusChangeTime ≤ (applyStatusEvents o events).statusChangeTime := by
  induction events generalizing o with
  | nil => exact le_refl _
  | cons e rest ih =>
    obtain ⟨h1, h2⟩ := h
    exact le_trans h1 (ih (o.setStatus e.1 e.2) h2)

/-- Monotonicity transfers across a split at the last time of the prefix. -/
theorem timesMonotone_append (t0 : ℤ) (l1 l2 : List (OrderStatus × ℤ))
    (h : timesMonotone t0 (l1 ++ l2)) :
    timesMonotone (lastEventTime t0 l1) l2 := by
  induction l1 generalizing t0 with
  | nil => exact h
  | cons e rest ih => exact ih e.2 h.2

/-- A successful basket construction stamps creation data: the status is
Pending and `statusChangeTime` equals `orderTime` equals `now`. -/
theorem construct_ok_fields (userId addr : String) (now : ℤ)
    (store : List (String × ℤ)) (cart : List CartLine) (o0 : Order)
    (h : (Order.construct userId cart addr now store).2 = .ok o0) :
    o0.statusChangeTime = now ∧ o0.orderTime = now ∧
      o0.status = .PENDING := by
  unfold Order.construct at h
  rcases hr : orderLinesLoop store cart [] 0 with ⟨s2, r⟩
  rw [hr] at h
  cases r with
  | error e => simp at h
  | ok it =>
    obtain ⟨items, total⟩ := it
    simp only at h
    have h2 := h
    simp at h2
    rw [← h2]
    exact ⟨rfl, rfl, rfl⟩

/-- C7: `statusChangeTime` starts equal to `createdAt` (the implicit
transition into Pending at construction), every `setStatus` call refreshes
it to that call's instant, after any monotone-clock call sequence it equals
the instant of the most recent transition, and it never decreases along the
sequence. -/
theorem statusChangeTime_invariant (userId addr : String) (now : ℤ)
    (store : List (String × ℤ)) (cart : List CartLine) (o0 : Order)
    (events : List (OrderStatus × ℤ))
    (hcreate : (Order.construct userId cart addr now store).2 = .ok o0)
    (hmono : timesMonotone o0.statusChangeTime events) :
    o0.statusChangeTime = o0.orderTime ∧
    (∀ (o : Order) (s : OrderStatus) (t : ℤ),
      (o.setStatus s t).statusChangeTime = t) ∧
    (applyStatusEvents o0 events).statusChangeTime =
      lastEventTime o0.statusChangeTime events ∧
    ∀ pre suf, events = pre ++ suf →
      (applyStatusEvents o0 pre).statusChangeTime ≤
        (applyStatusEvents o0 events).statusChangeTime := by
  obtain ⟨hc1, hc2, -⟩ :=
    construct_ok_fields userId addr now store cart o0 hcreate
  refine ⟨hc1.trans hc2.symm, fun o s t => rfl,
    applyStatusEvents_last o0 events, ?_⟩
  intro pre suf heq
  subst heq
  rw [applyStatusEvents_append]
  refine applyStatusEvents_time_ge _ suf ?_
  rw [applyStatusEvents_last]
  exact timesMonotone_append _ pre suf hmono

/-- The order produced by constructing from an empty basket at instant 7. -/
def ord7 : Order :=
  ⟨Order.generateOrderId "u" 7, "u", [], 7, 0, "a", .PENDING, 7⟩

/-- C7 witness: the invariant instantiated on a concrete construction and a
concrete two-event monotone history. -/
theorem statusChangeTime_invariant_inst :
    ord7.statusChangeTime = ord7.orderTime ∧
    (∀ (o : Order) (s : OrderStatus) (t : ℤ),
      (o.setStatus s t).statusChangeTime = t) ∧
    (applyStatusEvents ord7
        [(.SHIPPED, 10), (.DELIVERED, 12)]).statusChangeTime =
      lastEventTime ord7.statusChangeTime
        [(.SHIPPED, 10), (.DELIVERED, 12)] ∧
    ∀ pre suf, [((.SHIPPED : OrderStatus), (10 : ℤ)), (.DELIVERED, 12)] =
        pre ++ suf →
      (applyStatusEvents ord7 pre).statusChangeTime ≤
        (applyStatusEvents ord7
          [(.SHIPPED, 10), (.DELIVERED, 12)]).statusChangeTime :=
  statusChangeTime_invariant "u" "a" 7 [] [] ord7
    [(.SHIPPED, 10), (.DELIVERED, 12)] rfl
    ⟨by decide, by decide, trivial⟩

/-- Numeric value of a run of decimal digit characters. -/
def digitsVal (ds : List Char) : ℕ :=
  ds.foldl (fun acc c => acc * 10 + (c.toNat - 48)) 0

/-- `std::stoi` applied to the id tail (part_006 line 594): skip leading
whitespace, allow one sign, then parse the longest leading digit run; when
no digit follows, `std::stoi` throws, modelled as `none` (the catch block at
lines 598-600 ignores it).  `int` overflow is not modelled — promotion
counters stay far below `INT_MAX`. -/
def stoiPrefix (cs : List Char) : Option ℤ :=
  match cs.dropWhile (fun c => c.isWhitespace) with
  | '+' :: cs2 =>
      if (cs2.takeWhile (fun c => c.isDigit)).isEmpty then none
      else some ((digitsVal (cs2.takeWhile (fun c => c.isDigit)) : ℤ))
  | '-' :: cs2 =>
      if (cs2.takeWhile (fun c => c.isDigit)).isEmpty then none
      else some (-(digitsVal (cs2.takeWhile (fun c => c.isDigit)) : ℤ))
  | cs2 =>
      if (cs2.takeWhile (fun c => c.isDigit)).isEmpty then none
      else some ((digitsVal (cs2.takeWhile (fun c => c.isDigit)) : ℤ))

/-- `std::setfill('0') << std::setw(3)`: pad the decimal rendering to width
at least 3 with leading zeros. -/
def zeroPad3 (n : ℤ) : String :=
  if (toString n).length < 3 then
    String.mk (List.replicate (3 - (toString n).length) '0') ++ toString n
  else toString n

/-- One iteration of `generatePromotionId`'s scan (part_006 lines 590-602):
consider only ids of length at least 8 whose first five characters are
`PROMO`, parse the tail with `stoi`, keep the running maximum. -/
def generateIdStep (maxNum : ℤ) (p : Promotion) : ℤ :=
  if 8 ≤ p.promotionId.length ∧
      p.promotionId.toList.take 5 = "PROMO".toList then
    match stoiPrefix (p.promotionId.toList.drop 5) with
    | some num => if maxNum < num then num else maxNum
    | none => maxNum
  else maxNum

/-- `PromotionManager::generatePromotionId` (part_006 lines 587-607).
(`std::string::length` counts bytes; promotion ids in this system are
ASCII, where bytes and characters coincide.) -/
def PromotionManager.generatePromotionId (promotions : List Promotion) :
    String :=
  "PROMO" ++ zeroPad3 (promotions.foldl generateIdStep 0 + 1)

/-- The id-generation rule exactly as claim C8 words it: every id matching
`PROMO<digits>` — a digit suffix of any positive length — participates with
its numeric suffix, and the result is `PROMO` + zero-padded (max + 1),
`PROMO001` when none participates. -/
def claimGenerateId (promotions : List Promotion) : String :=
  "PROMO" ++ zeroPad3 ((promotions.filterMap (fun p =>
    if p.promotionId.toList.take 5 = "PROMO".toList ∧
        p.promotionId.toList.drop 5 ≠ [] ∧
        (p.promotionId.toList.drop 5).all (fun c => c.isDigit) then
      some ((digitsVal (p.promotionId.toList.drop 5) : ℤ))
    else none)).foldl max 0 + 1)

/-- The participation rule the code actually implements: ids of length at
least 8 (so a suffix of at least 3 characters) whose first five characters
are `PROMO`, the suffix read with `stoi` prefix-parsing. -/
def amendedGenerateId (promotions : List Promotion) : String :=
  "PROMO" ++ zeroPad3 ((promotions.filterMap (fun p =>
    if 8 ≤ p.promotionId.length ∧
        p.promotionId.toList.take 5 = "PROMO".toList then
      stoiPrefix (p.promotionId.toList.drop 5)
    else none)).foldl max 0 + 1)

/-- A promotion whose id has a two-digit suffix. -/
def promo99 : Promotion :=
  ⟨"PROMO99", "old", .FULL_REDUCTION, true, 0, 1000, "", 1, 300, 50⟩

/-- C8 counterexample: `PROMO99` matches the claimed `PROMO<digits>` pattern
with value 99, so the claim's rule produces `PROMO100`; the code requires a
total length of at least 8, skips `PROMO99`, and produces `PROMO001`. -/
theorem generatePromotionId_skips_short_ids :
    PromotionManager.generatePromotionId [promo99] = "PROMO001" ∧
    claimGenerateId [promo99] = "PROMO100" ∧
    ("PROMO001" : String) ≠ "PROMO100" := by
  refine ⟨?_, ?_, by decide⟩ <;> rfl

/-- The scan's fold is the maximum (clamped below by 0) of the parsed
values. -/
theorem generateIdStep_foldl (l : List Promotion) : ∀ init : ℤ,
    l.foldl generateIdStep init =
      (l.filterMap (fun p =>
        if 8 ≤ p.promotionId.length ∧
            p.promotionId.toList.take 5 = "PROMO".toList then
          stoiPrefix (p.promotionId.toList.drop 5)
        else none)).foldl max init := by
  induction l with
  | nil => intro init; rfl
  | cons p l ih =>
    intro init
    rw [List.foldl_cons, List.filterMap_cons]
    by_cases hc : 8 ≤ p.promotionId.length ∧
        p.promotionId.toList.take 5 = "PROMO".toList
    · rw [if_pos hc]
      have hstep : generateIdStep init p =
          match stoiPrefix (p.promotionId.toList.drop 5) with
          | some num => if init < num then num else init
          | none => init := by
        unfold generateIdStep
        rw [if_pos hc]
      cases hp : stoiPrefix (p.promotionId.toList.drop 5) with
      | none =>
        have hstep2 : generateIdStep init p = init := by
          unfold generateIdStep
          rw [if_pos hc, hp]
        rw [hstep2]
        exact ih init
      | some n =>
        have hmax : (if init < n then n else init) = max init n := by
          by_cases h : init < n
          · rw [if_pos h, max_eq_right (le_of_lt h)]
          · rw [if_neg h, max_eq_left (le_of_not_lt h)]
        have hstep2 : generateIdStep init p = max init n := by
          unfold generateIdStep
          rw [if_pos hc, hp]
          exact hmax
        rw [hstep2, List.foldl_cons]
        exact ih _
    · rw [if_neg hc]
      have hstep : generateIdStep init p = init := by
        unfold generateIdStep
        rw [if_neg hc]
      rw [hstep]
      exact ih init

/-- C8 (amended): `generatePromotionId` scans the ids of length at least 8
whose first five characters are `PROMO`, parses each suffix with `stoi`
prefix semantics, and returns `PROMO` + (1 + the maximum value found,
clamped below by 0), zero-padded to a minimum width of 3; with no
participating id it returns `PROMO001`. -/
theorem generatePromotionId_amended (promotions : List Promotion) :
    PromotionManager.generatePromotionId promotions =
      amendedGenerateId promotions ∧
    PromotionManager.generatePromotionId [] = "PROMO001" := by
  constructor
  · unfold PromotionManager.generatePromotionId amendedGenerateId
    rw [generateIdStep_foldl]
  · rfl

/-- `Order::stringToStatus` (Src/Order/Order.cpp lines 142-152): recognizes
the Chinese and English forms of the three statuses and falls back to
`PENDING` for anything else. -/
def Order.stringToStatus (s : String) : OrderStatus :=
  if s = "待发货" ∨ s = "PENDING" then .PENDING
  else if s = "已发货" ∨ s = "SHIPPED" then .SHIPPED
  else if s = "已签收" ∨ s = "DELIVERED" then .DELIVERED
  else .PENDING

/-- The `Order` built by `OrderManager::loadFromFile` from one parsed CSV
record (Src/Order/OrderManager.cpp lines 144-157): the already-parsed
fields are passed to the 8-argument constructor, with the status text mapped
through `stringToStatus`. -/
def OrderManager.orderFromRecord (orderId userId : String)
    (items : List OrderItem) (orderTime : ℤ) (totalAmount : ℚ)
    (shippingAddress statusField : String) (statusChangeTime : ℤ) : Order :=
  { orderId := orderId, userId := userId, items := items,
    orderTime := orderTime, totalAmount := totalAmount,
    shippingAddress := shippingAddress,
    status := Order.stringToStatus statusField,
    statusChangeTime := statusChangeTime }

/-- C10: any status string that is neither the Chinese nor the English form
of Pending/Shipped/Delivered maps to `PENDING`, so a loaded record with a
corrupted status field silently becomes a Pending order. -/
theorem stringToStatus_default (s : String)
    (h : s ≠ "待发货" ∧ s ≠ "PENDING" ∧ s ≠ "已发货" ∧ s ≠ "SHIPPED" ∧
      s ≠ "已签收" ∧ s ≠ "DELIVERED") :
    Order.stringToStatus s = .PENDING ∧
    ∀ (orderId userId : String) (items : List OrderItem) (orderTime : ℤ)
      (totalAmount : ℚ) (addr : String) (sct : ℤ),
      (OrderManager.orderFromRecord orderId userId items orderTime
        totalAmount addr s sct).status = .PENDING := by
  obtain ⟨h1, h2, h3, h4, h5, h6⟩ := h
  have hs : Order.stringToStatus s = .PENDING := by
    unfold Order.stringToStatus
    rw [if_neg (by exact fun hc => hc.elim h1 h2),
      if_neg (by exact fun hc => hc.elim h3 h4),
      if_neg (by exact fun hc => hc.elim h5 h6)]
  exact ⟨hs, fun orderId userId items orderTime totalAmount addr sct => hs⟩

/-- C10 witness: the corrupted status text `"???"` loads as Pending. -/
theorem stringToStatus_default_inst :
    Order.stringToStatus "???" = .PENDING ∧
    ∀ (orderId userId : String) (items : List OrderItem) (orderTime : ℤ)
      (totalAmount : ℚ) (addr : String) (sct : ℤ),
      (OrderManager.orderFromRecord orderId userId items orderTime
        totalAmount addr "???" sct).status = .PENDING :=
  stringToStatus_default "???"
    ⟨by decide, by decide, by decide, by decide, by decide, by decide⟩

end Shop
